import Mathlib

/-!
# Verification of the crunchy-proxy connection-handling core

Shallow embedding of the message-relay engine of `crunchy-proxy`
(`src/proxy/proxy.go` and `src/connect/connect.go`) and proofs about the
spec's claims.

Bytes are modelled as `Nat` (Go `byte` values are always `< 256`; the
encodings produced here only yield such values).  Network reads/writes are
modelled as explicit oracles/event traces.  The wire-protocol collaborator
functions (`protocol.GetMessageType`, `protocol.GetMessageLength`,
`protocol.GetVersion`) are modelled from their well-known behavior: a frame
is a one-byte type tag followed by a big-endian 32-bit length (counting the
length field itself) and a payload; a startup packet carries its version in
bytes 4..7.
-/

/-- `protocol.QueryMessageType` — the byte tag of a simple query frame. -/
def QueryMessageType : Nat := 81

/-- `protocol.TerminateMessageType` — the byte tag of a terminate frame. -/
def TerminateMessageType : Nat := 88

/-- `protocol.ReadyForQueryMessageType` — the byte tag of a ready-for-query
frame. -/
def ReadyForQueryMessageType : Nat := 90

/-- `protocol.SSLRequestCode` — the special "upgrade-request" protocol
version carried by an SSL request startup packet. -/
def SSLRequestCode : Nat := 80877103

/-- `protocol.SSLAllowed` — the single acceptance byte. -/
def SSLAllowed : Nat := 83

/-- `protocol.SSLNotAllowed` — the single refusal byte. -/
def SSLNotAllowed : Nat := 78

/-- `protocol.GetMessageType`: the first byte of a frame. -/
def GetMessageType (message : List Nat) : Nat := message.headD 0

/-- `protocol.GetMessageLength`: the big-endian 32-bit integer in bytes
1..4 of a frame, as a signed `int32` (values `≥ 2^31` wrap negative). -/
def GetMessageLength (message : List Nat) : Int :=
  let v : Nat := message.getD 1 0 * 2 ^ 24 + message.getD 2 0 * 2 ^ 16 +
    message.getD 3 0 * 2 ^ 8 + message.getD 4 0
  if v < 2 ^ 31 then (v : Int) else (v : Int) - 2 ^ 32

/-- `protocol.GetVersion`: the big-endian 32-bit integer in bytes 4..7 of a
startup packet.  (All versions that matter here are small and positive, so
the value is kept as a `Nat`.) -/
def GetVersion (message : List Nat) : Nat :=
  message.getD 4 0 * 2 ^ 24 + message.getD 5 0 * 2 ^ 16 +
    message.getD 6 0 * 2 ^ 8 + message.getD 7 0

/-- One logical wire frame: a type tag and a payload. -/
structure Frame where
  tag : Nat
  payload : List Nat
  deriving DecidableEq

/-- A frame whose length field fits a positive `int32`. -/
def FrameOK (f : Frame) : Prop := 4 + f.payload.length < 2 ^ 31

instance (f : Frame) : Decidable (FrameOK f) := by
  unfold FrameOK; infer_instance

/-- Big-endian 32-bit encoding of a (small) natural number. -/
def encInt32 (n : Nat) : List Nat :=
  [n / 2 ^ 24 % 256, n / 2 ^ 16 % 256, n / 2 ^ 8 % 256, n % 256]

/-- Serialization of one frame: tag byte, length field (4 plus the payload
length, counting the length field itself), payload. -/
def encodeFrame (f : Frame) : List Nat :=
  f.tag :: encInt32 (4 + f.payload.length) ++ f.payload

/-- Serialization of a batch of frames as they appear in one read. -/
def encodeBatch (fs : List Frame) : List Nat :=
  (fs.map encodeFrame).join

/-- The tag of the last frame of a batch (0 for the empty batch). -/
def lastTagD : List Frame → Nat
  | [] => 0
  | [f] => f.tag
  | _ :: f :: fs => lastTagD (f :: fs)

/--
The frame-boundary scan of the drain sub-loop, `proxy.go` lines 288-297:

    for start := 0; start < length; {
        messageType = protocol.GetMessageType(message[start:])
        messageLength = protocol.GetMessageLength(message[start:])
        start = (start + int(messageLength) + 1)
    }

The result is the final value of `messageType`.  `fuel` bounds the number
of iterations: whenever every scanned length field is non-negative, `start`
strictly increases, so `length + 1` ticks always suffice; a negative
`start` (on which Go would panic slicing `message[start:]`) exits with the
current `messageType`.
-/
def scanLoop (fuel : Nat) (message : List Nat) (length : Nat) (start : Int)
    (messageType : Nat) : Nat :=
  match fuel with
  | 0 => messageType
  | fuel + 1 =>
    if 0 ≤ start ∧ start < (length : Int) then
      let s := start.toNat
      let messageType := GetMessageType (message.drop s)
      let messageLength := GetMessageLength (message.drop s)
      scanLoop fuel message length (start + messageLength + 1) messageType
    else messageType

/-- Lines 282-297: `messageType` starts as the type of `message[:length]`
and is then updated by the frame-boundary scan; the value returned is what
`messageType` holds at line 305. -/
def scanBatch (data : List Nat) (length : Nat) : Nat :=
  scanLoop (length + 1) data length 0 (GetMessageType (data.take length))

/-- The outcome of one `connect.Receive` from the backend during the drain
sub-loop, together with whether forwarding that buffer to the client
failed (`sendErr`, the error of line 299). -/
structure ReadResult where
  data : List Nat
  length : Nat
  err : Bool
  sendErr : Bool
  deriving DecidableEq

/-- A well-formed read: the buffer holds exactly one encoded batch. -/
def mkRead (fs : List Frame) (e se : Bool) : ReadResult :=
  ⟨encodeBatch fs, (encodeBatch fs).length, e, se⟩

/-- A list of well-formed reads with per-read error flags. -/
def mkReads : List (List Frame) → (Nat → Bool) → (Nat → Bool) → List ReadResult
  | [], _, _ => []
  | fs :: rest, e, se =>
    mkRead fs (e 0) (se 0) :: mkReads rest (fun i => e (i + 1)) (fun i => se (i + 1))

/--
The body of one drain sub-loop iteration (`proxy.go` lines 275-306) as far
as the `done` flag is concerned.  The assignments `done = true` on a read
error (line 279) and on a client-send error (line 302) are both dead: line
305 unconditionally overwrites `done` with
`messageType == protocol.ReadyForQueryMessageType`.
-/
def drainIter (r : ReadResult) : Bool :=
  let done := r.err
  let messageType := scanBatch r.data r.length
  let done := done || r.sendErr
  messageType == ReadyForQueryMessageType

/-- The drain sub-loop over a finite oracle of backend reads: `some n`
means the loop finished after consuming exactly `n` reads; `none` means it
was still asking for another read when the oracle ran out. -/
def drainLoop : List ReadResult → Option Nat
  | [] => none
  | r :: rs => if drainIter r then some 1 else (drainLoop rs).map (· + 1)

theorem drainLoop_pos : ∀ rs n, drainLoop rs = some n → 0 < n := by
  intro rs
  induction rs with
  | nil => intro n h; simp [drainLoop] at h
  | cons r rs ih =>
    intro n h
    simp only [drainLoop] at h
    by_cases hr : drainIter r
    · simp [hr] at h; omega
    · simp [hr, Option.map_eq_some'] at h
      obtain ⟨m, _, hm⟩ := h
      omega

theorem drainIter_eq_scan (r : ReadResult) :
    drainIter r = (scanBatch r.data r.length == ReadyForQueryMessageType) := rfl

theorem getMessageLength_encInt32 (t : Nat) (n : Nat) (rest : List Nat)
    (hn : n < 2 ^ 31) :
    GetMessageLength (t :: encInt32 n ++ rest) = (n : Int) := by
  have hv : n / 2 ^ 24 % 256 * 2 ^ 24 + n / 2 ^ 16 % 256 * 2 ^ 16 +
      n / 2 ^ 8 % 256 * 2 ^ 8 + n % 256 = n := by omega
  have h1 : (t :: encInt32 n ++ rest).getD 1 0 = n / 2 ^ 24 % 256 := rfl
  have h2 : (t :: encInt32 n ++ rest).getD 2 0 = n / 2 ^ 16 % 256 := rfl
  have h3 : (t :: encInt32 n ++ rest).getD 3 0 = n / 2 ^ 8 % 256 := rfl
  have h4 : (t :: encInt32 n ++ rest).getD 4 0 = n % 256 := rfl
  simp only [GetMessageLength, h1, h2, h3, h4]
  rw [hv, if_pos hn]

theorem encodeFrame_length (f : Frame) :
    (encodeFrame f).length = 5 + f.payload.length := by
  simp [encodeFrame, encInt32]
  omega

theorem encodeBatch_cons (f : Frame) (fs : List Frame) :
    encodeBatch (f :: fs) = encodeFrame f ++ encodeBatch fs := by
  simp [encodeBatch]

theorem encodeBatch_nil : encodeBatch [] = [] := rfl

theorem getMessageType_encodeFrame (f : Frame) (rest : List Nat) :
    GetMessageType (encodeFrame f ++ rest) = f.tag := by
  simp [GetMessageType, encodeFrame]

theorem getMessageLength_encodeFrame (f : Frame) (rest : List Nat)
    (hf : FrameOK f) :
    GetMessageLength (encodeFrame f ++ rest) = ((4 + f.payload.length : Nat) : Int) := by
  have : encodeFrame f ++ rest =
      f.tag :: encInt32 (4 + f.payload.length) ++ (f.payload ++ rest) := by
    simp [encodeFrame]
  rw [this]
  exact getMessageLength_encInt32 _ _ _ hf

theorem lastTagD_cons_of_ne (f : Frame) (fs : List Frame) (h : fs ≠ []) :
    lastTagD (f :: fs) = lastTagD fs := by
  cases fs with
  | nil => exact absurd rfl h
  | cons g gs => rfl

/-- The frame-boundary scan over a buffer that, from position `pre.length`
on, holds exactly the encoded batch `fs`: the scan ends on the last frame's
tag. -/
theorem scanLoop_encodeBatch (fs : List Frame) (pre : List Nat) (mt : Nat)
    (fuel : Nat) (hfs : fs ≠ []) (hok : ∀ f ∈ fs, FrameOK f)
    (hfuel : fs.length < fuel) :
    scanLoop fuel (pre ++ encodeBatch fs) (pre.length + (encodeBatch fs).length)
      (pre.length : Int) mt = lastTagD fs := by
  induction fs generalizing pre mt fuel with
  | nil => exact absurd rfl hfs
  | cons f fs ih =>
    obtain ⟨fuel, rfl⟩ : ∃ k, fuel = k + 1 := by
      cases fuel with
      | zero => omega
      | succ k => exact ⟨k, rfl⟩
    have hfok : FrameOK f := hok f (List.mem_cons_self f fs)
    have hflen : (encodeFrame f).length = 5 + f.payload.length :=
      encodeFrame_length f
    have hbatch : encodeBatch (f :: fs) = encodeFrame f ++ encodeBatch fs :=
      encodeBatch_cons f fs
    have hdrop : (pre ++ encodeBatch (f :: fs)).drop pre.length =
        encodeFrame f ++ encodeBatch fs := by
      rw [List.drop_left, hbatch]
    have hpos : 0 < (encodeBatch (f :: fs)).length := by
      rw [hbatch, List.length_append, hflen]
      omega
    have hcond : (0 : Int) ≤ (pre.length : Int) ∧
        (pre.length : Int) < ((pre.length + (encodeBatch (f :: fs)).length : Nat) : Int) := by
      refine ⟨Int.natCast_nonneg _, ?_⟩
      push_cast
      omega
    rw [scanLoop, if_pos hcond]
    simp only [Int.toNat_natCast, hdrop]
    rw [getMessageType_encodeFrame, getMessageLength_encodeFrame f _ hfok]
    have hstart : (pre.length : Int) + ((4 + f.payload.length : Nat) : Int) + 1 =
        ((pre ++ encodeFrame f).length : Nat) := by
      push_cast
      simp [hflen]
      omega
    rw [hstart]
    cases fs with
    | nil =>
      obtain ⟨fuel, rfl⟩ : ∃ k, fuel = k + 1 := by
        simp only [List.length_cons, List.length_nil] at hfuel
        cases fuel with
        | zero => omega
        | succ k => exact ⟨k, rfl⟩
      have hlen : pre.length + (encodeBatch [f]).length = (pre ++ encodeFrame f).length := by
        simp [encodeBatch]
      rw [scanLoop, if_neg]
      · rfl
      · have h1 : (encodeBatch [f]).length = (encodeFrame f).length := by
          simp [encodeBatch]
        push_cast
        omega
    | cons g gs =>
      have hassoc : pre ++ encodeBatch (f :: g :: gs) =
          (pre ++ encodeFrame f) ++ encodeBatch (g :: gs) := by
        rw [hbatch, List.append_assoc]
      have hlen : pre.length + (encodeBatch (f :: g :: gs)).length =
          (pre ++ encodeFrame f).length + (encodeBatch (g :: gs)).length := by
        rw [hbatch]
        simp
        omega
      rw [hassoc, hlen, lastTagD_cons_of_ne f (g :: gs) (by simp)]
      exact ih (pre ++ encodeFrame f) f.tag fuel (by simp)
        (fun x hx => hok x (List.mem_cons_of_mem f hx)) (by simp at hfuel ⊢; omega)

theorem length_le_encodeBatch (fs : List Frame) :
    fs.length ≤ (encodeBatch fs).length := by
  induction fs with
  | nil => simp [encodeBatch]
  | cons f fs ih =>
    rw [encodeBatch_cons]
    simp [encodeFrame_length]
    omega

/-- Scanning one whole well-formed batch yields the last frame's tag. -/
theorem scanBatch_encodeBatch (fs : List Frame) (hfs : fs ≠ [])
    (hok : ∀ f ∈ fs, FrameOK f) :
    scanBatch (encodeBatch fs) (encodeBatch fs).length = lastTagD fs := by
  have h := scanLoop_encodeBatch fs [] (GetMessageType ((encodeBatch fs).take (encodeBatch fs).length))
    ((encodeBatch fs).length + 1) hfs hok
    (Nat.lt_succ_of_le (length_le_encodeBatch fs))
  simpa [scanBatch] using h

theorem drainIter_mkRead (fs : List Frame) (e se : Bool) (hfs : fs ≠ [])
    (hok : ∀ f ∈ fs, FrameOK f) :
    drainIter (mkRead fs e se) = (lastTagD fs == ReadyForQueryMessageType) := by
  rw [drainIter_eq_scan]
  simp only [mkRead]
  rw [scanBatch_encodeBatch fs hfs hok]

/--
**C5.** The response drain sub-loop terminates if and only if the last
frame scanned (frame-by-frame, by the length field) in the most recently
read batch has the ready-for-query type tag: over any supply of
well-formed batches, the loop consumes exactly `n + 1` reads precisely
when batch `n` is the first one whose last frame's tag is
`ReadyForQueryMessageType`.  In particular (`n = 0`), a single read
returning a multi-frame batch whose final frame has that tag terminates
the sub-loop after exactly one outer read.  The per-read error flags
(`errf`, backend read errors; `sendf`, client send errors) are irrelevant
to termination.
-/
theorem drain_terminates_iff_last_tag_ready
    (batches : List (List Frame)) (errf sendf : Nat → Bool)
    (hb : ∀ fs ∈ batches, fs ≠ [] ∧ ∀ f ∈ fs, FrameOK f)
    (n : Nat) (hn : n < batches.length) :
    drainLoop (mkReads batches errf sendf) = some (n + 1) ↔
      (lastTagD (batches.getD n []) = ReadyForQueryMessageType ∧
       ∀ m, m < n → lastTagD (batches.getD m []) ≠ ReadyForQueryMessageType) := by
  induction batches generalizing errf sendf n with
  | nil => simp at hn
  | cons fs rest ih =>
    obtain ⟨hne, hok⟩ := hb fs (List.mem_cons_self fs rest)
    have hiter : drainIter (mkRead fs (errf 0) (sendf 0)) =
        (lastTagD fs == ReadyForQueryMessageType) :=
      drainIter_mkRead fs _ _ hne hok
    cases n with
    | zero =>
      by_cases hz : lastTagD fs = ReadyForQueryMessageType
      · have h1 : drainIter (mkRead fs (errf 0) (sendf 0)) = true := by
          rw [hiter]; simp [hz]
        simp [mkReads, drainLoop, h1, hz]
      · have h1 : drainIter (mkRead fs (errf 0) (sendf 0)) = false := by
          rw [hiter]; exact beq_eq_false_iff_ne.mpr hz
        simp only [mkReads, drainLoop, h1, Bool.false_eq_true, if_false,
          List.getD_cons_zero]
        constructor
        · intro h
          rw [Option.map_eq_some'] at h
          obtain ⟨m, hm, hm1⟩ := h
          have := drainLoop_pos _ _ hm
          omega
        · intro h
          exact absurd h.1 hz
    | succ n =>
      have hn' : n < rest.length := by simp at hn; omega
      by_cases hz : lastTagD fs = ReadyForQueryMessageType
      · have h1 : drainIter (mkRead fs (errf 0) (sendf 0)) = true := by
          rw [hiter]; simp [hz]
        simp only [mkReads, drainLoop, h1, if_true, List.getD_cons_succ]
        constructor
        · intro h
          simp at h
        · intro h
          exact absurd hz (h.2 0 (Nat.succ_pos n))
      · have h1 : drainIter (mkRead fs (errf 0) (sendf 0)) = false := by
          rw [hiter]; exact beq_eq_false_iff_ne.mpr hz
        have hb' : ∀ gs ∈ rest, gs ≠ [] ∧ ∀ f ∈ gs, FrameOK f :=
          fun gs hgs => hb gs (List.mem_cons_of_mem fs hgs)
        have ihr := ih (fun i => errf (i + 1)) (fun i => sendf (i + 1)) hb' n hn'
        simp only [mkReads, drainLoop, h1, Bool.false_eq_true, if_false,
          List.getD_cons_succ]
        constructor
        · intro h
          rw [Option.map_eq_some'] at h
          obtain ⟨m, hm, hm1⟩ := h
          have hm2 : m = n + 1 := by omega
          subst hm2
          obtain ⟨ha, hrest⟩ := ihr.mp hm
          refine ⟨ha, ?_⟩
          intro m hm3
          cases m with
          | zero => simpa using hz
          | succ m => exact hrest m (by omega)
        · intro h
          obtain ⟨ha, hrest⟩ := h
          have : drainLoop (mkReads rest (fun i => errf (i + 1)) (fun i => sendf (i + 1))) =
              some (n + 1) := by
            refine ihr.mpr ⟨ha, ?_⟩
            intro m hm
            exact hrest (m + 1) (by omega)
          rw [this]
          rfl

/-- The annotations extracted from a simple query by `getAnnotations`
(`proxy.go` line 238): `annotations[StartAnnotation]`,
`annotations[EndAnnotation]`, `annotations[ReadAnnotation]`. -/
structure Annotations where
  startAnn : Bool
  endAnn : Bool
  readAnn : Bool
  deriving DecidableEq

/-- What one acquisition from the Pool Selector yields
(`p.getPool(read)` / `cp.Next()` / `cp.Name`, `proxy.go` lines 254-256).
Pools, connections and node names are modelled by ids. -/
structure AcquireResult where
  poolId : Nat
  name : Nat
  conn : Nat
  deriving DecidableEq

/-- The per-session local variables of the `Serving` loop
(`proxy.go` lines 204-209).  `cp`/`backend` are `none` while the Go
pointers are `nil`; `endFlag` is the variable named `end` in the source. -/
structure SessionState where
  statementBlock : Bool
  endFlag : Bool
  readFlag : Bool
  cp : Option Nat
  backend : Option Nat
  nodeName : Nat
  deriving DecidableEq

/-- Observable actions of one serving-loop iteration, in program order. -/
inductive Event where
  | getPool (read : Bool) (poolId : Nat)
  | returnPool (read : Bool) (poolId : Nat)
  | lockAcquire
  | statsIncr (node : Nat)
  | lockRelease
  | sendBackend (conn : Nat) (data : List Nat)
  | sendClient (data : List Nat)
  | poolReturn (poolId : Nat) (conn : Nat)
  deriving DecidableEq

def isGetPool : Event → Bool
  | .getPool _ _ => true
  | _ => false

def isStatsIncr : Event → Bool
  | .statsIncr _ => true
  | _ => false

def isSendBackend : Event → Bool
  | .sendBackend _ _ => true
  | _ => false

/-- The result of one serving-loop iteration: `terminated` models the
`return` on a terminate message; `continues s` models falling through to
the next `connect.Receive` with the session variables `s`. -/
inductive StepOutcome where
  | terminated
  | continues (s : SessionState)
  deriving DecidableEq

/-- Lines 240-245: `begin` sets the block flag; otherwise `end` marks the
end of a block and clears the block flag. -/
def updateBlockFlags (a : Annotations) (s : SessionState) : SessionState :=
  if a.startAnn then { s with statementBlock := true }
  else if a.endAnn then { s with endFlag := true, statementBlock := false }
  else s

/-- Lines 240-247: the session variables right after the annotations of
the current query have been folded in (`read = annotations[ReadAnnotation]`,
line 247). -/
def queryState (a : Annotations) (s : SessionState) : SessionState :=
  { updateBlockFlags a s with readFlag := a.readAnn }

/-- Lines 254-256: the session variables after a fresh acquisition `r`. -/
def acquiredState (r : AcquireResult) (s1 : SessionState) : SessionState :=
  { s1 with cp := some r.poolId, backend := some r.conn, nodeName := r.name }

/-- Line 253: `!statementBlock && !end || cp == nil || backend == nil`. -/
def needNewBackend (s : SessionState) : Bool :=
  (!s.statementBlock && !s.endFlag) || s.cp.isNone || s.backend.isNone

/-- The client-visible side of the drain sub-loop: each consumed read is
forwarded verbatim (`message[:length]`, line 299) before the `done` check. -/
def drainRun : List ReadResult → List Event
  | [] => []
  | r :: rs =>
    Event.sendClient (r.data.take r.length) :: (if drainIter r then [] else drainRun rs)

/-- Lines 260-323, after the backend for this query is settled (`s2`):
stats increment under the lock, relay to the backend, drain the response,
and—when not inside a statement block—reset `end` and return the backend
to its pool.  Note that `cp` and `backend` are not cleared on return. -/
def afterSelect (drainReads : List ReadResult) (s2 : SessionState)
    (message : List Nat) (length : Nat) (acquireEvents : List Event) :
    StepOutcome × List Event :=
  let relayEvents := [Event.lockAcquire, Event.statsIncr s2.nodeName,
    Event.lockRelease, Event.sendBackend (s2.backend.getD 0) (message.take length)]
  let drainEvents := drainRun drainReads
  if s2.statementBlock then
    (StepOutcome.continues s2, acquireEvents ++ relayEvents ++ drainEvents)
  else
    let s3 := if s2.endFlag then { s2 with endFlag := false } else s2
    (StepOutcome.continues s3,
      acquireEvents ++ relayEvents ++ drainEvents ++
        [Event.poolReturn (s2.cp.getD 0) (s2.backend.getD 0)])

/--
One iteration of the `Serving` loop of `HandleConnection`
(`proxy.go` lines 211-325) for one successfully received client message.
`getAnnotations` is the query-annotation collaborator; `acquire` is the
oracle for what `p.getPool(read)`/`cp.Next()`/`cp.Name` yield if a new
backend is drawn; `drainReads` is the oracle of backend reads for the
drain sub-loop.
-/
def servingStep (getAnnotations : List Nat → Annotations)
    (acquire : Bool → AcquireResult) (drainReads : List ReadResult)
    (s : SessionState) (message : List Nat) (length : Nat) :
    StepOutcome × List Event :=
  let messageType := GetMessageType message
  if messageType = TerminateMessageType then
    (StepOutcome.terminated, [])
  else if messageType = QueryMessageType then
    let a := getAnnotations message
    let s1 := queryState a s
    if needNewBackend s1 then
      let r := acquire s1.readFlag
      afterSelect drainReads (acquiredState r s1) message length
        [Event.getPool s1.readFlag r.poolId, Event.returnPool s1.readFlag r.poolId]
    else
      afterSelect drainReads s1 message length []
  else
    (StepOutcome.continues s, [])

/-- Whether an event trace contains a fresh acquisition from the Pool
Selector (`p.getPool`, line 254). -/
def acquiredNew (events : List Event) : Bool := events.any isGetPool

theorem drainRun_mem (rs : List ReadResult) (e : Event) (he : e ∈ drainRun rs) :
    ∃ d, e = Event.sendClient d := by
  induction rs with
  | nil => simp [drainRun] at he
  | cons r rs ih =>
    simp only [drainRun] at he
    rcases List.mem_cons.mp he with h | h
    · exact ⟨_, h⟩
    · by_cases hr : drainIter r
      · simp [hr] at h
      · simp only [hr, if_false, Bool.false_eq_true] at h
        exact ih h

/-- Everything `afterSelect` does, in one shape: the relay block
`[lock, incr, unlock, sendBackend]` with the selected node's name, then
only drain/release events; the pin variables are never cleared, and when
outside a statement block the backend is returned and `end` is reset. -/
theorem afterSelect_spec (dr : List ReadResult) (s2 : SessionState)
    (message : List Nat) (length : Nat) (aevs : List Event) :
    ∃ post s3,
      afterSelect dr s2 message length aevs =
        (StepOutcome.continues s3,
          aevs ++ [Event.lockAcquire, Event.statsIncr s2.nodeName, Event.lockRelease,
            Event.sendBackend (s2.backend.getD 0) (message.take length)] ++ post) ∧
      s3.nodeName = s2.nodeName ∧ s3.backend = s2.backend ∧ s3.cp = s2.cp ∧
      s3.statementBlock = s2.statementBlock ∧
      (∀ e ∈ post, isStatsIncr e = false ∧ isSendBackend e = false ∧ isGetPool e = false) ∧
      (s2.statementBlock = false →
        Event.poolReturn (s2.cp.getD 0) (s2.backend.getD 0) ∈ post ∧ s3.endFlag = false) := by
  by_cases hsb : s2.statementBlock
  · refine ⟨drainRun dr, s2, ?_, rfl, rfl, rfl, rfl, ?_, ?_⟩
    · simp [afterSelect, hsb]
    · intro e he
      obtain ⟨d, rfl⟩ := drainRun_mem dr e he
      exact ⟨rfl, rfl, rfl⟩
    · intro h; rw [hsb] at h; exact absurd h (by simp)
  · refine ⟨drainRun dr ++ [Event.poolReturn (s2.cp.getD 0) (s2.backend.getD 0)],
      if s2.endFlag then { s2 with endFlag := false } else s2, ?_, ?_, ?_, ?_, ?_, ?_, ?_⟩
    · simp only [afterSelect, hsb, if_false, Bool.false_eq_true]
      rw [List.append_assoc]
    · by_cases he : s2.endFlag <;> simp [he]
    · by_cases he : s2.endFlag <;> simp [he]
    · by_cases he : s2.endFlag <;> simp [he]
    · by_cases he : s2.endFlag <;> simp [he, eq_false_of_ne_true hsb]
    · intro e he
      rcases List.mem_append.mp he with h | h
      · obtain ⟨d, rfl⟩ := drainRun_mem dr e h
        exact ⟨rfl, rfl, rfl⟩
      · rcases List.mem_singleton.mp h with rfl
        exact ⟨rfl, rfl, rfl⟩
    · intro _
      refine ⟨List.mem_append_right _ (List.mem_singleton.mpr rfl), ?_⟩
      by_cases he : s2.endFlag <;> simp [he]

theorem needNewBackend_eq (s : SessionState) :
    needNewBackend s =
      !((s.cp.isSome && s.backend.isSome) && (s.statementBlock || s.endFlag)) := by
  rcases s with ⟨sb, e, r, cp, b, n⟩
  cases cp <;> cases b <;> cases sb <;> cases e <;> rfl

theorem updateBlockFlags_cp (a : Annotations) (s : SessionState) :
    (updateBlockFlags a s).cp = s.cp := by
  rcases a with ⟨as, ae, ar⟩
  cases as <;> cases ae <;> rfl

theorem updateBlockFlags_backend (a : Annotations) (s : SessionState) :
    (updateBlockFlags a s).backend = s.backend := by
  rcases a with ⟨as, ae, ar⟩
  cases as <;> cases ae <;> rfl

theorem updateBlockFlags_endFlag (a : Annotations) (s : SessionState)
    (hend : s.endFlag = false) :
    (updateBlockFlags a s).endFlag = (!a.startAnn && a.endAnn) := by
  rcases a with ⟨as, ae, ar⟩
  cases as <;> cases ae <;> simp [updateBlockFlags, hend]

theorem acquiredNew_afterSelect (dr : List ReadResult) (s2 : SessionState)
    (message : List Nat) (length : Nat) (aevs : List Event) :
    acquiredNew (afterSelect dr s2 message length aevs).2 = acquiredNew aevs := by
  obtain ⟨post, s3, heq, _, _, _, _, hpost, _⟩ :=
    afterSelect_spec dr s2 message length aevs
  rw [heq]
  simp only [acquiredNew, List.any_append]
  have hp : post.any isGetPool = false := by
    rw [List.any_eq_false]
    intro e he
    simp [(hpost e he).2.2]
  rw [hp]
  simp [isGetPool]

theorem acquiredNew_servingStep (gA : List Nat → Annotations)
    (acq : Bool → AcquireResult) (dr : List ReadResult) (s : SessionState)
    (message : List Nat) (length : Nat)
    (hq : GetMessageType message = QueryMessageType) :
    acquiredNew (servingStep gA acq dr s message length).2 =
      needNewBackend (queryState (gA message) s) := by
  simp only [servingStep, hq, QueryMessageType, TerminateMessageType]
  norm_num
  by_cases hn : needNewBackend (queryState (gA message) s)
  · rw [if_pos hn, acquiredNew_afterSelect, hn]
    rfl
  · have hn' : needNewBackend (queryState (gA message) s) = false :=
      eq_false_of_ne_true hn
    rw [if_neg hn, acquiredNew_afterSelect, hn']
    rfl

theorem queryState_cp (a : Annotations) (s : SessionState) :
    (queryState a s).cp = s.cp := updateBlockFlags_cp a s

theorem queryState_backend (a : Annotations) (s : SessionState) :
    (queryState a s).backend = s.backend := updateBlockFlags_backend a s

theorem queryState_statementBlock (a : Annotations) (s : SessionState) :
    (queryState a s).statementBlock = (updateBlockFlags a s).statementBlock := rfl

theorem queryState_endFlag (a : Annotations) (s : SessionState) :
    (queryState a s).endFlag = (updateBlockFlags a s).endFlag := rfl

theorem acquiredState_cp (r : AcquireResult) (s1 : SessionState) :
    (acquiredState r s1).cp = some r.poolId := rfl

theorem acquiredState_backend (r : AcquireResult) (s1 : SessionState) :
    (acquiredState r s1).backend = some r.conn := rfl

theorem acquiredState_statementBlock (r : AcquireResult) (s1 : SessionState) :
    (acquiredState r s1).statementBlock = s1.statementBlock := rfl

/--
**C1.** In the Serving loop, for a query frame, a new backend is acquired
from the pool selector if and only if it is NOT the case that the session
already has a pinned backend (`cp` and `backend` both set) and (the
in-block flag — after this query's begin/end annotations are folded in —
is true, or this query is the end-of-block query).  `hend` records the
loop invariant that the `end` variable is false when an iteration starts
(it is reset in the same iteration that sets it).
-/
theorem backend_selection_iff (gA : List Nat → Annotations)
    (acq : Bool → AcquireResult) (dr : List ReadResult) (s : SessionState)
    (message : List Nat) (length : Nat)
    (hq : GetMessageType message = QueryMessageType)
    (hend : s.endFlag = false) :
    acquiredNew (servingStep gA acq dr s message length).2 =
      !((s.cp.isSome && s.backend.isSome) &&
        ((updateBlockFlags (gA message) s).statementBlock ||
         (!(gA message).startAnn && (gA message).endAnn))) := by
  rw [acquiredNew_servingStep gA acq dr s message length hq, needNewBackend_eq,
    queryState_cp, queryState_backend, queryState_statementBlock, queryState_endFlag,
    updateBlockFlags_endFlag _ _ hend]

theorem backend_selection_iff_witness :
    acquiredNew (servingStep (fun _ => ⟨false, false, false⟩) (fun _ => ⟨5, 2, 9⟩) []
      ⟨false, false, false, none, none, 0⟩ [81] 1).2 = true := by
  have h := backend_selection_iff (fun _ => ⟨false, false, false⟩) (fun _ => ⟨5, 2, 9⟩) []
    ⟨false, false, false, none, none, 0⟩ [81] 1 rfl rfl
  rw [h]
  decide

/--
**C9.** Every client frame whose message type is neither the terminate
tag nor the query tag is silently discarded: the state is unchanged and
no event at all is emitted (nothing forwarded, no response, no stats
change, no pool acquired or released), and the loop continues.
-/
theorem other_frames_ignored (gA : List Nat → Annotations)
    (acq : Bool → AcquireResult) (dr : List ReadResult) (s : SessionState)
    (message : List Nat) (length : Nat)
    (h1 : GetMessageType message ≠ TerminateMessageType)
    (h2 : GetMessageType message ≠ QueryMessageType) :
    servingStep gA acq dr s message length = (StepOutcome.continues s, []) := by
  simp only [servingStep]
  rw [if_neg h1, if_neg h2]

theorem other_frames_ignored_witness :
    servingStep (fun _ => ⟨false, false, false⟩) (fun _ => ⟨0, 0, 0⟩) []
      ⟨false, false, false, none, none, 0⟩ [82] 1 =
      (StepOutcome.continues ⟨false, false, false, none, none, 0⟩, []) :=
  other_frames_ignored _ _ _ _ _ _ (by decide) (by decide)

/--
**C3 counterexample.** A query frame with no annotations processed with
the in-block flag false: the backend is drawn (pool 5, connection 9) and,
although the iteration ends outside any statement block, the resulting
session state still carries `cp = some 5` and `backend = some 9` — the
pin variables are NOT cleared, so the "pinned backend absent whenever no
block is open" reading is false of the code.
-/
theorem pin_not_cleared_counterexample :
    (servingStep (fun _ => ⟨false, false, false⟩) (fun _ => ⟨5, 2, 9⟩) []
        ⟨false, false, false, some 1, some 3, 0⟩ [81] 1).1 =
      StepOutcome.continues ⟨false, false, false, some 5, some 9, 2⟩ ∧
    (SessionState.backend ⟨false, false, false, some 5, some 9, 2⟩).isSome = true :=
  ⟨rfl, rfl⟩

/--
**C3 (amended).** After processing any query frame that leaves the
in-block flag false (including the query that just ended a block), the
session returns the backend connection in use to its pool
(`Event.poolReturn`) and resets the `end` flag — but it does NOT clear
the pin variables: the resulting state still holds the just-released pool
and backend in `cp`/`backend`.
-/
theorem backend_released_pin_retained (gA : List Nat → Annotations)
    (acq : Bool → AcquireResult) (dr : List ReadResult) (s : SessionState)
    (message : List Nat) (length : Nat)
    (hq : GetMessageType message = QueryMessageType)
    (hnb : (updateBlockFlags (gA message) s).statementBlock = false) :
    ∃ s3 p b,
      (servingStep gA acq dr s message length).1 = StepOutcome.continues s3 ∧
      s3.cp = some p ∧ s3.backend = some b ∧
      Event.poolReturn p b ∈ (servingStep gA acq dr s message length).2 ∧
      s3.statementBlock = false ∧ s3.endFlag = false := by
  have hne : GetMessageType message ≠ TerminateMessageType := by
    rw [hq]; decide
  simp only [servingStep]
  rw [if_neg hne, if_pos hq]
  have hsb1 : (queryState (gA message) s).statementBlock = false := by
    rw [queryState_statementBlock]; exact hnb
  by_cases hn : needNewBackend (queryState (gA message) s)
  · rw [if_pos hn]
    obtain ⟨post, s3, heq, hname3, hb3, hcp3, hsb3, hpost, hrel⟩ :=
      afterSelect_spec dr
        (acquiredState (acq (queryState (gA message) s).readFlag) (queryState (gA message) s))
        message length
        [Event.getPool (queryState (gA message) s).readFlag
          (acq (queryState (gA message) s).readFlag).poolId,
         Event.returnPool (queryState (gA message) s).readFlag
          (acq (queryState (gA message) s).readFlag).poolId]
    have hsb2 : (acquiredState (acq (queryState (gA message) s).readFlag)
        (queryState (gA message) s)).statementBlock = false := by
      rw [acquiredState_statementBlock]; exact hsb1
    obtain ⟨hmem, hef⟩ := hrel hsb2
    refine ⟨s3, (acq (queryState (gA message) s).readFlag).poolId,
      (acq (queryState (gA message) s).readFlag).conn, ?_, ?_, ?_, ?_, ?_, hef⟩
    · rw [heq]
    · rw [hcp3, acquiredState_cp]
    · rw [hb3, acquiredState_backend]
    · rw [heq]
      simp only [acquiredState_cp, acquiredState_backend, Option.getD_some] at hmem
      exact List.mem_append.mpr (Or.inr hmem)
    · rw [hsb3, acquiredState_statementBlock]; exact hsb1
  · rw [if_neg hn]
    cases hcp : (queryState (gA message) s).cp with
    | none =>
      exact absurd (by simp [needNewBackend, hcp]) hn
    | some p =>
      cases hb : (queryState (gA message) s).backend with
      | none =>
        exact absurd (by simp [needNewBackend, hb]) hn
      | some b =>
        obtain ⟨post, s3, heq, hname3, hb3, hcp3, hsb3, hpost, hrel⟩ :=
          afterSelect_spec dr (queryState (gA message) s) message length []
        obtain ⟨hmem, hef⟩ := hrel hsb1
        refine ⟨s3, p, b, ?_, ?_, ?_, ?_, ?_, hef⟩
        · rw [heq]
        · rw [hcp3, hcp]
        · rw [hb3, hb]
        · rw [heq]
          simp only [hcp, hb, Option.getD_some] at hmem
          exact List.mem_append.mpr (Or.inr hmem)
        · rw [hsb3]; exact hsb1

theorem backend_released_pin_retained_witness :
    ∃ s3 p b,
      (servingStep (fun _ => ⟨false, false, false⟩) (fun _ => ⟨5, 2, 9⟩) []
          ⟨false, false, false, none, none, 0⟩ [81] 1).1 = StepOutcome.continues s3 ∧
      s3.cp = some p ∧ s3.backend = some b ∧
      Event.poolReturn p b ∈ (servingStep (fun _ => ⟨false, false, false⟩)
        (fun _ => ⟨5, 2, 9⟩) [] ⟨false, false, false, none, none, 0⟩ [81] 1).2 ∧
      s3.statementBlock = false ∧ s3.endFlag = false :=
  backend_released_pin_retained (fun _ => ⟨false, false, false⟩) (fun _ => ⟨5, 2, 9⟩) []
    ⟨false, false, false, none, none, 0⟩ [81] 1 rfl rfl

/--
**C6.** For every query frame relayed in the Serving loop, the stats
counter for the selected node's name is incremented exactly once, under
the exclusive lock, before the query is forwarded to the backend: the
event trace is `pre ++ [lockAcquire, statsIncr node, lockRelease,
sendBackend conn query] ++ post` where `node` is the node name of the
resulting session state, `pre` (the pool-selection events) contains no
increment and no backend send, and `post` (drain/release events) contains
no increment.  Frames that are not query messages cause no increment of
any counter.
-/
theorem query_increments_stats_once (gA : List Nat → Annotations)
    (acq : Bool → AcquireResult) (dr : List ReadResult) (s : SessionState)
    (message : List Nat) (length : Nat) :
    (GetMessageType message = QueryMessageType →
      ∃ pre post s3,
        (servingStep gA acq dr s message length).1 = StepOutcome.continues s3 ∧
        (servingStep gA acq dr s message length).2 =
          pre ++ [Event.lockAcquire, Event.statsIncr s3.nodeName, Event.lockRelease,
            Event.sendBackend (s3.backend.getD 0) (message.take length)] ++ post ∧
        (∀ e ∈ pre, isStatsIncr e = false ∧ isSendBackend e = false) ∧
        (∀ e ∈ post, isStatsIncr e = false)) ∧
    (GetMessageType message ≠ QueryMessageType →
      ∀ e ∈ (servingStep gA acq dr s message length).2, isStatsIncr e = false) := by
  constructor
  · intro hq
    have hne : GetMessageType message ≠ TerminateMessageType := by
      rw [hq]; decide
    simp only [servingStep]
    rw [if_neg hne, if_pos hq]
    by_cases hn : needNewBackend (queryState (gA message) s)
    · rw [if_pos hn]
      obtain ⟨post, s3, heq, hname3, hb3, hcp3, hsb3, hpost, hrel⟩ :=
        afterSelect_spec dr
          (acquiredState (acq (queryState (gA message) s).readFlag) (queryState (gA message) s))
          message length
          [Event.getPool (queryState (gA message) s).readFlag
            (acq (queryState (gA message) s).readFlag).poolId,
           Event.returnPool (queryState (gA message) s).readFlag
            (acq (queryState (gA message) s).readFlag).poolId]
      refine ⟨[Event.getPool (queryState (gA message) s).readFlag
          (acq (queryState (gA message) s).readFlag).poolId,
        Event.returnPool (queryState (gA message) s).readFlag
          (acq (queryState (gA message) s).readFlag).poolId], post, s3, ?_, ?_, ?_, ?_⟩
      · rw [heq]
      · rw [heq, hname3, hb3]
      · intro e he
        simp only [List.mem_cons, List.mem_singleton, List.not_mem_nil, or_false] at he
        rcases he with rfl | rfl
        · exact ⟨rfl, rfl⟩
        · exact ⟨rfl, rfl⟩
      · intro e he
        exact (hpost e he).1
    · rw [if_neg hn]
      obtain ⟨post, s3, heq, hname3, hb3, hcp3, hsb3, hpost, hrel⟩ :=
        afterSelect_spec dr (queryState (gA message) s) message length []
      refine ⟨[], post, s3, ?_, ?_, ?_, ?_⟩
      · rw [heq]
      · rw [heq, hname3, hb3]
      · intro e he
        simp at he
      · intro e he
        exact (hpost e he).1
  · intro hnq
    by_cases ht : GetMessageType message = TerminateMessageType
    · simp only [servingStep]
      rw [if_pos ht]
      intro e he
      simp at he
    · rw [other_frames_ignored gA acq dr s message length ht hnq]
      intro e he
      simp at he

theorem query_increments_stats_once_witness :
    ∃ pre post s3,
      (servingStep (fun _ => ⟨false, false, false⟩) (fun _ => ⟨5, 2, 9⟩) []
          ⟨false, false, false, none, none, 0⟩ [81] 1).1 = StepOutcome.continues s3 ∧
      (servingStep (fun _ => ⟨false, false, false⟩) (fun _ => ⟨5, 2, 9⟩) []
          ⟨false, false, false, none, none, 0⟩ [81] 1).2 =
        pre ++ [Event.lockAcquire, Event.statsIncr s3.nodeName, Event.lockRelease,
          Event.sendBackend (s3.backend.getD 0) (([81] : List Nat).take 1)] ++ post ∧
      (∀ e ∈ pre, isStatsIncr e = false ∧ isSendBackend e = false) ∧
      (∀ e ∈ post, isStatsIncr e = false) :=
  (query_increments_stats_once (fun _ => ⟨false, false, false⟩) (fun _ => ⟨5, 2, 9⟩) []
    ⟨false, false, false, none, none, 0⟩ [81] 1).1 rfl

/--
**C2 (code bug).** A read error during the drain sub-loop is NOT a
terminal condition: although line 279 sets `done = true` on the error,
line 305 unconditionally overwrites `done` with
`messageType == ReadyForQueryMessageType`, so the sub-loop keeps reading.
Concretely: the first read returns a single CommandComplete-style frame
(tag 67) together with a read error — the iteration ends with
`done = false` — and the loop then consumes a SECOND read (the
ready-for-query frame), finishing only after 2 reads.
-/
theorem drain_read_error_not_terminal :
    drainIter ⟨encodeBatch [⟨67, []⟩], (encodeBatch [⟨67, []⟩]).length, true, false⟩ = false ∧
    drainLoop [⟨encodeBatch [⟨67, []⟩], (encodeBatch [⟨67, []⟩]).length, true, false⟩,
      ⟨encodeBatch [⟨90, []⟩], (encodeBatch [⟨90, []⟩]).length, false, false⟩] = some 2 := by
  exact ⟨by decide, by decide⟩

/-- The state of the backend connection returned by `connect.Connect`. -/
inductive BackendConn where
  | plain
  | closed
  | upgraded
  deriving DecidableEq

/-- The error cases `connect.Connect` can return. -/
inductive ConnError where
  | dial
  | send
  | recv
  deriving DecidableEq

/-- The environment of one `connect.Connect` call: the `ssl.enable`
config flag, which transport operations fail, and the backend's response
buffer to the SSL probe (the first byte is the accept/refuse marker). -/
structure ConnectEnv where
  sslEnable : Bool
  dialErr : Bool
  writeErr : Bool
  readErr : Bool
  response : List Nat
  deriving DecidableEq

/--
`connect.Connect` (`src/connect/connect.go` lines 35-93).  Returns the
connection (`none` models a `nil` return) and the error.  With SSL
enabled it sends the 8-byte SSL request probe, reads the response, and:
if the first response byte is not `'S'` it CLOSES the connection — but
then still falls through to `return connection, nil`, so no error is
reported (the source comment says "close the connection and throw an
error", yet no error is thrown); if the byte is `'S'` the connection is
upgraded (`connect.UpgradeClientConnection`).  `response.length > 0`
mirrors `len(response) > 0` (in Go the buffer is a fixed 4096-byte
allocation, so that test is always true).
-/
def Connect (env : ConnectEnv) : Option BackendConn × Option ConnError :=
  if env.dialErr then (none, some ConnError.dial)
  else if !env.sslEnable then (some BackendConn.plain, none)
  else if env.writeErr then (none, some ConnError.send)
  else if env.readErr then (none, some ConnError.recv)
  else if env.response.length > 0 && env.response.headD 0 != SSLAllowed then
    (some BackendConn.closed, none)
  else (some BackendConn.upgraded, none)

/--
**C4 (code bug).** With `ssl.enable` true and a successful probe-response
read whose first byte is the refusal marker `'N'` (not the acceptance
marker `'S'`), `Connect` closes the connection and never upgrades it —
but it reports NO failure to its caller: the result is the closed
connection together with a `nil` error, contradicting both the claim and
the source's own comment ("close the connection and throw an error").
-/
theorem ssl_refusal_closed_without_error :
    Connect ⟨true, false, false, false, [SSLNotAllowed]⟩ =
      (some BackendConn.closed, none) ∧
    (some BackendConn.closed ≠ some BackendConn.upgraded) := by
  exact ⟨by decide, by decide⟩

/-- The per-connection actions of the seeding loop. -/
inductive SeedAction where
  | logAuthFailed
  | logConnError
  | addToPool
  deriving DecidableEq

/-- The environment of one iteration of the startup seeding loop: whether
`connect.Connect` returned an error, and what
`connect.HandleAuthenticationRequest` returned. -/
structure SeedEnv where
  connectErr : Bool
  authenticated : Bool
  deriving DecidableEq

/--
One iteration of the pool-seeding loop of `setupPools`
(`src/proxy/proxy.go` lines 70-99): authentication failure is only
logged; the connection is added to the pool (`newPool.Add(connection)`)
whenever `Connect` returned no error — regardless of whether the
authentication exchange succeeded.
-/
def seedIteration (env : SeedEnv) : List SeedAction :=
  (if !env.authenticated then [SeedAction.logAuthFailed] else []) ++
  (if env.connectErr then [SeedAction.logConnError] else [SeedAction.addToPool])

/--
**C7 (code bug).** A seed connection whose `Connect` succeeded but whose
backend authentication exchange FAILED is still added to the node's pool:
the iteration logs the authentication failure and then adds the
connection anyway, because `Add` is guarded only by the `Connect` error.
-/
theorem unauthenticated_connection_added :
    seedIteration ⟨false, false⟩ = [SeedAction.logAuthFailed, SeedAction.addToPool] ∧
    SeedAction.addToPool ∈ seedIteration ⟨false, false⟩ := by
  exact ⟨by decide, by decide⟩

/-- The proxy-side view of the client connection: whether the server-side
TLS upgrade has been performed on it. -/
structure ClientConn where
  upgraded : Bool
  deriving DecidableEq

/--
Modelled from the spec: `connect.UpgradeServerConnection` is declared in
the `connect` package but its body is not among the shown sources.  Per
the spec's client-side contract, the server-side half of the upgrade
handshake is performed only if acceptance was sent — i.e. only when the
proxy's own SSL flag is enabled; otherwise the connection is returned
unchanged ("Upgrade the client connection if required", `proxy.go` line
154).
-/
def UpgradeServerConnection (sslEnable : Bool) (c : ClientConn) : ClientConn :=
  if sslEnable then { upgraded := true } else c

/-- The environment of the startup phase of `HandleConnection`: the
proxy's SSL flag, the client's first frame, and the result of the re-read
after SSL negotiation (`none` models `io.EOF`, i.e. the client closed). -/
structure StartupEnv where
  sslEnable : Bool
  firstMessage : List Nat
  reread : Option (List Nat)
  deriving DecidableEq

/-- The outcome of the startup phase: either the client closed during
negotiation, or the proxy proceeds with a startup frame, a (possibly
upgraded) client connection, and the single SSL response byte it sent
(`none` when no SSL negotiation took place). -/
inductive StartupOutcome where
  | clientClosed
  | proceed (message : List Nat) (client : ClientConn) (sslResponseByte : Option Nat)
  deriving DecidableEq

/--
The SSL-negotiation part of `HandleConnection`
(`src/proxy/proxy.go` lines 126-167): if the first frame's version equals
`protocol.SSLRequestCode`, send a single byte — `SSLAllowed` when the
proxy's SSL flag is enabled, `SSLNotAllowed` otherwise — run
`connect.UpgradeServerConnection`, and re-read the client's real startup
frame (an `io.EOF` here is a clean close); otherwise proceed directly
with the first frame.
-/
def handleStartupPhase (env : StartupEnv) : StartupOutcome :=
  let version := GetVersion env.firstMessage
  if version = SSLRequestCode then
    let respByte := if env.sslEnable then SSLAllowed else SSLNotAllowed
    let client := UpgradeServerConnection env.sslEnable ⟨false⟩
    match env.reread with
    | none => StartupOutcome.clientClosed
    | some m => StartupOutcome.proceed m client (some respByte)
  else StartupOutcome.proceed env.firstMessage ⟨false⟩ none

/--
**C8.** For a client whose first frame's declared protocol version equals
the upgrade-request code while the proxy's SSL flag is disabled, the
proxy responds with the single refusal byte `SSLNotAllowed`, the client
connection is NOT upgraded (the upgrade is performed only if acceptance
was sent), and the client's subsequent real startup frame is re-read and
processed as plaintext.
-/
theorem ssl_disabled_refusal_plaintext (env : StartupEnv) (m : List Nat)
    (hssl : env.sslEnable = false)
    (hv : GetVersion env.firstMessage = SSLRequestCode)
    (hr : env.reread = some m) :
    handleStartupPhase env = StartupOutcome.proceed m ⟨false⟩ (some SSLNotAllowed) := by
  simp only [handleStartupPhase, hv, hssl, hr, UpgradeServerConnection]
  rfl

theorem ssl_disabled_refusal_plaintext_witness :
    handleStartupPhase ⟨false, [0, 0, 0, 8, 4, 210, 22, 47], some [112, 113]⟩ =
      StartupOutcome.proceed [112, 113] ⟨false⟩ (some SSLNotAllowed) :=
  ssl_disabled_refusal_plaintext ⟨false, [0, 0, 0, 8, 4, 210, 22, 47], some [112, 113]⟩
    [112, 113] rfl (by decide) rfl

/-- The error returned by `connect.AuthenticateClient`, as the serving
code distinguishes it: `io.EOF`, some other non-nil error, or `nil`
(modelled by `Option`). -/
inductive ClientAuthError where
  | eof
  | other
  deriving DecidableEq

/-- How `HandleConnection` leaves the client-authentication check. -/
inductive PostAuthOutcome where
  | cleanClose
  | failClose
  | fault
  | serve
  deriving DecidableEq

/--
`src/proxy/proxy.go` lines 190-201: after
`authenticated, err := connect.AuthenticateClient(...)`, the code returns
silently on `err == io.EOF`; otherwise, if `!authenticated`, it logs
`err.Error()` — dereferencing `err` with NO nil check (a nil `err` on
this branch is a nil-pointer fault, modelled as `PostAuthOutcome.fault`)
— and returns; otherwise it proceeds to the serving loop.
-/
def postAuthentication (authenticated : Bool) (err : Option ClientAuthError) :
    PostAuthOutcome :=
  if err = some ClientAuthError.eof then PostAuthOutcome.cleanClose
  else if !authenticated then
    match err with
    | none => PostAuthOutcome.fault
    | some _ => PostAuthOutcome.failClose
  else PostAuthOutcome.serve

/--
**C10.** The client-authentication failure branch dereferences the error
without a nil check: for every call result, if the error is non-nil the
handler never faults on this path — but with `authenticated = false` and
a nil error, the branch faults instead of cleanly closing the session.
The path is therefore safe exactly under the precondition that
`AuthenticateClient` never returns `(false, nil)`.
-/
theorem auth_failure_nil_error_fault (authenticated : Bool)
    (err : Option ClientAuthError) :
    (err ≠ none → postAuthentication authenticated err ≠ PostAuthOutcome.fault) ∧
    postAuthentication false none = PostAuthOutcome.fault := by
  constructor
  · intro hne
    cases err with
    | none => exact absurd rfl hne
    | some e =>
      cases e <;> cases authenticated <;> simp [postAuthentication]
  · rfl

theorem auth_failure_nil_error_fault_witness :
    postAuthentication true (some ClientAuthError.other) ≠ PostAuthOutcome.fault ∧
    postAuthentication false none = PostAuthOutcome.fault :=
  ⟨(auth_failure_nil_error_fault true (some ClientAuthError.other)).1 (by simp),
   (auth_failure_nil_error_fault true (some ClientAuthError.other)).2⟩

theorem drain_terminates_iff_last_tag_ready_witness :
    drainLoop (mkReads [[⟨67, [100]⟩, ⟨90, []⟩]] (fun _ => false) (fun _ => false)) =
      some 1 :=
  (drain_terminates_iff_last_tag_ready [[⟨67, [100]⟩, ⟨90, []⟩]]
    (fun _ => false) (fun _ => false) (by decide) 0 (by decide)).mpr
    ⟨by decide, fun m hm => absurd hm (by omega)⟩
